import Mathlib

/-!
Verification of the `ezomyte` mod-text resolution engine and its JSON
decoders, as a shallow embedding in Lean 4.

Conventions used throughout:

* Rust strings are embedded as `List Char`; `chars` converts a Lean string
  literal into that form.
* Rust `f64` amounts and mod values are embedded as exact rationals (`ℚ`).
  All values exercised by the claims are exactly representable, and no claim
  depends on IEEE rounding.
* Fallible Rust functions returning `Result<_, E>` are embedded as
  `Except (List Char) _` (error payload = the formatted message) or as a
  dedicated error enum where the source has one.
* Every definition is executable (structural recursion only), so concrete
  runs of the embedded code can be established with `decide` / `rfl`.
-/

/-- Characters of a string literal (Rust `&str` as a `List Char`). -/
def chars (s : String) : List Char := s.data

/-- Decidable equality for `Except`, so concrete runs of the embedded
decoders can be checked by `decide`. -/
instance {ε α : Type} [DecidableEq ε] [DecidableEq α] : DecidableEq (Except ε α) := by
  intro x y
  cases x <;> cases y
  case error.error a b =>
    exact if h : a = b then isTrue (by rw [h]) else isFalse (by intro hh; cases hh; exact h rfl)
  case error.ok a b => exact isFalse (by intro hh; cases hh)
  case ok.error a b => exact isFalse (by intro hh; cases hh)
  case ok.ok a b =>
    exact if h : a = b then isTrue (by rw [h]) else isFalse (by intro hh; cases hh; exact h rfl)

/-- Embedding of Rust `char::is_whitespace` (the inputs in scope are ASCII,
where Lean's `Char.isWhitespace` agrees with Rust). -/
def isWs (c : Char) : Bool := c.isWhitespace

/-- Rust `str::trim_left` / `trim_start`. -/
def trimLeftC (v : List Char) : List Char := v.dropWhile isWs

/-- Rust `str::trim_right` / `trim_end`. -/
def trimRightC (v : List Char) : List Char := (v.reverse.dropWhile isWs).reverse

/-- Rust `str::trim`. -/
def trimC (v : List Char) : List Char := trimLeftC (trimRightC v)

/-- Case-sensitive `str::starts_with`. -/
def startsWithL : List Char → List Char → Bool
  | [], _ => true
  | _ :: _, [] => false
  | p :: ps, c :: cs => p = c && startsWithL ps cs

/-- Accumulator half of `splitWsC`. -/
def splitWsAux : List Char → List Char → List (List Char)
  | [], acc => if acc = [] then [] else [acc.reverse]
  | c :: cs, acc =>
    if isWs c then
      (if acc = [] then splitWsAux cs [] else acc.reverse :: splitWsAux cs [])
    else splitWsAux cs (c :: acc)

/-- Rust `str::split_whitespace`: maximal non-whitespace runs, no empties. -/
def splitWsC (v : List Char) : List (List Char) := splitWsAux v []

/-- Maximal leading run of ASCII digits, and the rest. -/
def digitRun : List Char → List Char × List Char
  | [] => ([], [])
  | c :: cs =>
    if c.isDigit then
      let pr := digitRun cs
      (c :: pr.1, pr.2)
    else ([], c :: cs)

/-- Numeric value of a digit string (base 10). -/
def natOfDigits (ds : List Char) : ℕ :=
  ds.foldl (fun acc c => acc * 10 + (c.toNat - 48)) 0

/-- Embedding of Rust `u64::from_str`: optional leading plus sign, then a
nonempty digit string whose value fits in 64 bits. -/
def parseU64 (s : List Char) : Option ℕ :=
  let ds := match s with
    | '+' :: rest => rest
    | other => other
  if ds ≠ [] ∧ ds.all Char.isDigit ∧ natOfDigits ds < 2 ^ 64 then
    some (natOfDigits ds)
  else none

/-- An unreduced fraction: the exact value of a parsed `f64` literal.
Kept as a numerator/denominator pair (rather than a `ℚ` produced by field
operations) so that concrete runs reduce inside the kernel; `toRat`
normalizes it. -/
structure F64Val where
  n : ℤ
  d : ℕ
deriving DecidableEq

/-- The rational value of a parsed float. -/
def F64Val.toRat (v : F64Val) : ℚ := mkRat v.n v.d

/-- Exponent suffix of a float literal (`e`/`E`, optional sign, digits);
scales the mantissa fraction accordingly, or fails on a malformed suffix. -/
def applyExp (num : ℤ) (den : ℕ) (r : List Char) : Option F64Val :=
  let cont := fun (r2 : List Char) =>
    let pr := match r2 with
      | '-' :: r3 => (true, r3)
      | '+' :: r3 => (false, r3)
      | other => (false, other)
    let dr := digitRun pr.2
    if dr.1 ≠ [] ∧ dr.2 = [] then
      some (if pr.1 then F64Val.mk num (den * 10 ^ natOfDigits dr.1)
            else F64Val.mk (num * 10 ^ natOfDigits dr.1) den)
    else none
  match r with
  | [] => some (F64Val.mk num den)
  | 'e' :: r2 => cont r2
  | 'E' :: r2 => cont r2
  | _ => none

/-- Embedding of Rust `f64::from_str` on finite decimal literals:
optional sign, digits with optional fraction (at least one digit overall),
optional exponent.  The value is kept exact; IEEE rounding and the special
forms `inf`/`NaN` are outside the scope of every claim and are not modelled
(they never occur in mod texts or price amounts). -/
def parseF64 (s : List Char) : Option F64Val :=
  let pr := match s with
    | '-' :: r => (true, r)
    | '+' :: r => (false, r)
    | other => (false, other)
  let ir := digitRun pr.2
  let finish := fun (mantissa : ℕ) (fracLen : ℕ) (rest : List Char) =>
    applyExp (if pr.1 then -(mantissa : ℤ) else (mantissa : ℤ)) (10 ^ fracLen) rest
  match ir.2 with
  | '.' :: r2 =>
    let fr := digitRun r2
    if ir.1 = [] ∧ fr.1 = [] then none
    else finish (natOfDigits (ir.1 ++ fr.1)) fr.1.length fr.2
  | other => if ir.1 = [] then none else finish (natOfDigits ir.1) 0 other

/-- Exact quotient of two parsed floats (`x / y`), as a normalized rational.
Division by zero yields `0` here where Rust would produce an infinity;
no claim exercises that case. -/
def divF64 (x y : F64Val) : ℚ :=
  let num : ℤ := x.n * y.d
  let den : ℤ := (x.d : ℤ) * y.n
  if den < 0 then mkRat (-num) (-den).toNat else mkRat num den.toNat

/-- Embedding of `ParseNumberError` (src/util/parsing.rs); the payloads of
the `Float`/`Rational` variants are dropped, and the source's `Syntax`
variant (a general shape error) is named `shape` here. -/
inductive ParseNumberError where
  | float
  | rational
  | shape
deriving DecidableEq

/-- Embedding of `parse_number` (src/util/parsing.rs): a single part parses
as `u64` falling back to `f64`; two '/'-separated parts parse as floats and
divide; any other part count is a `Syntax` error.  (In the source the two
float failures both convert into the `Float` variant; `Rational` is never
produced by this function.) -/
def parseNumber (s : List Char) : Except ParseNumberError ℚ :=
  let nums := (trimC s).splitOn '/'
  match nums with
  | [a] =>
    let amount := trimC a
    match parseU64 amount with
    | some n => .ok (mkRat n 1)
    | none =>
      match parseF64 amount with
      | some v => .ok v.toRat
      | none => .error ParseNumberError.float
  | [a, b] =>
    match parseF64 (trimC a), parseF64 (trimC b) with
    | some x, some y => .ok (divF64 x y)
    | _, _ => .error ParseNumberError.float
  | _ => .error ParseNumberError.shape

/-! ## Mod templates and their compiled patterns

`regex_from_mod_text_template` (src/stashes/model/item/mods/info.rs) turns a
template like `"+#% increased Life"` into the regex string
`"^" ++ escape(trimmed text with '#' → "\+?(\d+(?:\.\d+)?)") ++ "$"`.
The pattern is embedded structurally as an alternating list of literal
segments and value placeholders (one segment list entry per maximal piece of
the template split on `'#'`), together with an end-anchoring flag
(`true` for templates, `false` for shard prefixes whose trailing `"$"` was
stripped).  `Pat.str` renders the exact regex source string, which the code
uses for shard assignment and for the tie-break length. -/

/-- One piece of a compiled mod-text pattern: a literal run, or the numeric
value placeholder `\+?(\d+(?:\.\d+)?)` substituted for `'#'`. -/
inductive Seg where
  | lit (s : List Char)
  | ph
deriving DecidableEq

/-- Embedding of `regex::escape` on one character (the regex 0.2 `escape`
used by the crate backslash-escapes every character that is not an
ASCII-alphanumeric or underscore). -/
def escapeChar (c : Char) : List Char :=
  if c.isAlphanum ∨ c = '_' then [c] else ['\\', c]

/-- The regex source text of the numeric-value placeholder. -/
def valueRegexStr : List Char := chars "\\+?(\\d+(?:\\.\\d+)?)"

/-- Regex source text of one segment. -/
def Seg.render : Seg → List Char
  | .lit s => s.flatMap escapeChar
  | .ph => valueRegexStr

/-- A compiled pattern: segments plus whether it is anchored at the end
(`^...$` for full templates, `^...` for shard prefixes). -/
structure Pat where
  segs : List Seg
  anch : Bool
deriving DecidableEq

/-- The regex source string of a pattern, exactly as the Rust code builds
it (`format!("^{}$", ...)`, with the `"$"` stripped again for prefixes). -/
def Pat.str (p : Pat) : List Char :=
  '^' :: p.segs.flatMap Seg.render ++ (if p.anch then ['$'] else [])

/-- `mi.regex.as_str().len()`: byte length of the pattern source (all
patterns in scope are ASCII, where bytes and chars agree). -/
def Pat.strLen (p : Pat) : ℕ := p.str.length

/-- Segment list of a template text: split the trimmed text on `'#'` and
alternate literal pieces with placeholders.  This is exactly the
`escape(trim(text)).replace("\#", VALUE_RE)` construction of
`regex_from_mod_text_template`, read back structurally. -/
def segsOfTemplate (text : List Char) : List Seg :=
  match (trimC text).splitOn '#' with
  | [] => []
  | p :: rest => Seg.lit p :: rest.flatMap (fun q => [Seg.ph, Seg.lit q])

/-- Embedding of `regex_from_mod_text_template`
(src/stashes/model/item/mods/info.rs, lines 51-60). -/
def regexFromModTextTemplate (text : List Char) : Pat :=
  Pat.mk (segsOfTemplate text) true

/-- A shard prefix pattern (`Database::new`): the same template conversion
with the trailing `"$"` stripped (`trim_right_matches("$")`). -/
def prefixPatOfLine (line : List Char) : Pat :=
  Pat.mk (segsOfTemplate line) false

/-! ## The matching engine

The crate matches with the `regex` engine (case-insensitive, leftmost-first
capture semantics).  For the restricted pattern shape generated above the
engine is embedded as a backtracking matcher: `capsA` lists the capture
tuples of every way the text can be decomposed along the segments, in the
engine's preference order (greedy `\d+` / greedy optional fraction), so
`capsA ≠ []` is `is_match` and `(capsA ...).head?` is `Regex::captures`. -/

/-- Case-insensitive literal strip: consume `p` (up to ASCII case) from the
front of the text, returning the rest. -/
def stripCI : List Char → List Char → Option (List Char)
  | [], cs => some cs
  | _ :: _, [] => none
  | p :: ps, c :: cs => if p.toLower = c.toLower then stripCI ps cs else none

/-- All ways the fraction-part option `(?:\.\d+)?` extends an integer
capture, in preference order (fraction present with the longest digit run
first, then absent). -/
def fracCands (intPart rest : List Char) : List (List Char × List Char) :=
  match rest with
  | '.' :: ds =>
    let er := digitRun ds
    if er.1 = [] then [(intPart, rest)]
    else
      (((List.range er.1.length).reverse.map (· + 1)).map
        (fun j => (intPart ++ '.' :: er.1.take j, er.1.drop j ++ er.2))) ++ [(intPart, rest)]
  | _ => [(intPart, rest)]

/-- All candidate captures of `(\d+(?:\.\d+)?)` at the current position,
in the engine's backtracking order (longest digit run first). -/
def numCands (cs : List Char) : List (List Char × List Char) :=
  let dr := digitRun cs
  if dr.1 = [] then []
  else ((List.range dr.1.length).reverse.map (· + 1)).flatMap
    (fun k => fracCands (dr.1.take k) (dr.1.drop k ++ dr.2))

/-- Candidate (capture, rest) pairs for the full placeholder
`\+?(\d+(?:\.\d+)?)`: the optional leading `'+'` is consumed when present
(it can never backtrack profitably since `\d` does not match `'+'`), and it
is not part of the capture group. -/
def phCands (cs : List Char) : List (List Char × List Char) :=
  match cs with
  | '+' :: cs2 => numCands cs2
  | _ => numCands cs

/-- All capture tuples of the pattern segments against the text, in the
engine's preference order.  `anch = true` requires consuming the entire
text (`...$`); otherwise any remaining suffix is accepted (`^...`,
as used by shard-selection patterns, whose match-anywhere semantics
collapse to a prefix match because of the leading `'^'`). -/
def capsA (anch : Bool) : List Seg → List Char → List (List (List Char))
  | [], cs => if anch then (if cs = [] then [[]] else []) else [[]]
  | .lit p :: segs, cs =>
    match stripCI p cs with
    | some rest => capsA anch segs rest
    | none => []
  | .ph :: segs, cs =>
    (phCands cs).flatMap (fun pr => (capsA anch segs pr.2).map (fun cps => pr.1 :: cps))

/-- `RegexSet`/`Regex` `is_match` for one compiled pattern. -/
def Pat.matchesB (p : Pat) (text : List Char) : Bool :=
  !(capsA p.anch p.segs text).isEmpty

/-! ## Mod identifiers and `ModInfo` -/

/-- Embedding of `ModType` (src/model/item/mods/id.rs). -/
inductive ModType where
  | crafted
  | enchant
  | explicit
  | implicit
deriving DecidableEq

/-- Embedding of `ModId`: a mod type plus a number unique within the type. -/
structure ModId where
  type_ : ModType
  number : ℕ
deriving DecidableEq

/-- Embedding of `ModInfo` (src/stashes/model/item/mods/info.rs): identifier,
raw text template, and the compiled pattern. -/
structure ModInfo where
  id : ModId
  textTemplate : List Char
  pat : Pat
deriving DecidableEq

/-- `ModInfo::from_raw` with the identifier already parsed: stores the text
and compiles the template pattern. -/
def mkModInfo (id : ModId) (text : List Char) : ModInfo :=
  ModInfo.mk id text (regexFromModTextTemplate text)

/-- `ModInfo::param_count`: `captures_len() - 1`, i.e. the number of value
placeholders (each placeholder contributes exactly one capture group). -/
def ModInfo.paramCount (mi : ModInfo) : ℕ :=
  mi.pat.segs.count Seg.ph

/-- The numeric value of one captured substring:
`parse_number(m.as_str()).unwrap()` in the source.  The unwrap cannot fire
because captures of the value group are always parseable numbers
(`phCands_parse_ok` below); the embedding returns `0` in the impossible
branch. -/
def capValue (s : List Char) : ℚ :=
  match parseNumber s with
  | .ok q => q
  | .error _ => 0

/-- Embedding of `ModInfo::parse_text`
(src/stashes/model/item/mods/info.rs lines 91-101, identical in
src/model/item/mods/info.rs lines 90-100): an early `Some(no values)` when
the template has no parameters, otherwise the capture groups of the first
match of the pattern against the trimmed text, each parsed as a number. -/
def ModInfo.parseText (mi : ModInfo) (text : List Char) : Option (List ℚ) :=
  if mi.paramCount = 0 then some []
  else (capsA mi.pat.anch mi.pat.segs (trimC text)).head?.map (List.map capValue)

/-- A literal instantiation of a template text: each `'#'` replaced in order
by the corresponding sample-number string (`"0"` if the samples run out). -/
def instantiate : List Char → List (List Char) → List Char
  | [], _ => []
  | c :: rest, vs =>
    if c = '#' then vs.headD (chars "0") ++ instantiate rest vs.tail
    else c :: instantiate rest vs

/-! ## The sharded matcher

Embedding of `RegexMatcherShard` / `RegexMatcher`
(src/stashes/model/item/mods/database.rs, lines 135-312).  A shard keeps the
parallel `regex_set`/`items` vectors as one list of pairs;
`RegexSet::matches` reports matching indices in ascending order, so a
shard's `lookup_all` is a filter in insertion order. -/

/-- Embedding of `RegexMatcherShard<T>`. -/
structure RegexMatcherShard (α : Type) where
  pairs : List (Pat × α)
deriving DecidableEq

/-- `RegexMatcherShard::lookup_all`: all items whose pattern matches. -/
def RegexMatcherShard.lookupAll {α : Type} (sh : RegexMatcherShard α) (text : List Char) :
    List α :=
  (sh.pairs.filter (fun pr => pr.1.matchesB text)).map Prod.snd

/-- `RegexMatcherShard::count`. -/
def RegexMatcherShard.count {α : Type} (sh : RegexMatcherShard α) : ℕ :=
  sh.pairs.length

/-- `RegexMatcherShard::items`. -/
def RegexMatcherShard.items {α : Type} (sh : RegexMatcherShard α) : List α :=
  sh.pairs.map Prod.snd

/-- Embedding of `RegexMatcher<T>`: optional prefix shards (an outer shard
whose items are inner shards) plus an optional catch-all fallback shard. -/
structure RegexMatcher (α : Type) where
  shards : Option (RegexMatcherShard (RegexMatcherShard α))
  fallback : Option (RegexMatcherShard α)
deriving DecidableEq

/-- `RegexMatcher::new`: no sharding, everything in the fallback shard. -/
def RegexMatcher.new {α : Type} (mapping : List (Pat × α)) : RegexMatcher α :=
  RegexMatcher.mk none (some (RegexMatcherShard.mk mapping))

/-- Stable insertion into a list sorted descending by `key` (the element
goes before the first entry whose key is not larger). -/
def insertDescBy {α : Type} (key : α → ℕ) (x : α) : List α → List α
  | [] => [x]
  | y :: ys => if key y ≤ key x then x :: y :: ys else y :: insertDescBy key x ys

/-- Stable sort, descending by `key`: the embedding of the stable
`sort_by_key(|x| -(key(x) as isize))` (a stable sort is uniquely determined
by the key order, so any stable algorithm is the same function). -/
def sortDescBy {α : Type} (key : α → ℕ) (l : List α) : List α :=
  l.foldr (insertDescBy key) []

/-- Build-time shard assignment test: the prefix matcher applies
`^escape(p.str)` case-insensitively to the candidate's regex source string,
which holds exactly when `p.str` is a case-insensitive string prefix of it. -/
def pfxAccepts (p re : Pat) : Bool :=
  (stripCI p.str re.str).isSome

/-- The first prefix (in the length-sorted list) whose pattern string is a
prefix of the candidate's pattern string — the shard `re` is assigned to,
`none` meaning the catch-all shard. -/
def assignedPfx (sps : List Pat) (re : Pat) : Option Pat :=
  sps.find? (fun p => pfxAccepts p re)

/-- The shard-splitting loop of `RegexMatcher::with_shards`: each candidate
goes to the first matching prefix's shard; the leftovers form the catch-all
list.  (The source iterates over candidates picking the first matching
prefix; iterating over prefixes in order, each claiming its matches from
the not-yet-claimed candidates, is the same partition, with the same
relative order inside every shard.) -/
def partitionPfx {α : Type} :
    List Pat → List (Pat × α) → List (Pat × List (Pat × α)) × List (Pat × α)
  | [], mapping => ([], mapping)
  | p :: rest, mapping =>
    let here := mapping.filter (fun q => pfxAccepts p q.1)
    let there := mapping.filter (fun q => !pfxAccepts p q.1)
    let pr := partitionPfx rest there
    ((p, here) :: pr.1, pr.2)

/-- Embedding of `RegexMatcher::with_shards`
(src/stashes/model/item/mods/database.rs, lines 168-239): empty prefix list
falls back to `new`; otherwise the prefixes are stable-sorted descending by
length, candidates are split into shards by first matching prefix, empty
shards are dropped, and the leftovers (if any) become the fallback shard. -/
def RegexMatcher.withShards {α : Type} (prefixes : List Pat) (mapping : List (Pat × α)) :
    RegexMatcher α :=
  if prefixes.isEmpty then RegexMatcher.new mapping
  else
    let sps := sortDescBy Pat.strLen prefixes
    let pr := partitionPfx sps mapping
    let shardsMapping :=
      (pr.1.filter (fun q => !q.2.isEmpty)).map
        (fun q => (q.1, RegexMatcherShard.mk q.2))
    RegexMatcher.mk
      (if shardsMapping.isEmpty then none else some (RegexMatcherShard.mk shardsMapping))
      (if pr.2.isEmpty then none else some (RegexMatcherShard.mk pr.2))

/-- The shard-query half of `RegexMatcher::lookup_all`: all matches from the
prefix shards whose selection pattern matches the text. -/
def RegexMatcher.regularMatches {α : Type} (m : RegexMatcher α) (text : List Char) : List α :=
  match m.shards with
  | some shs => (shs.lookupAll text).flatMap (fun sh => sh.lookupAll text)
  | none => []

/-- Embedding of `RegexMatcher::lookup_all`
(src/stashes/model/item/mods/database.rs, lines 289-304): query all prefix
shards; only if that yields no matches, consult the fallback shard. -/
def RegexMatcher.lookupAll {α : Type} (m : RegexMatcher α) (text : List Char) : List α :=
  if (m.regularMatches text).isEmpty then
    match m.fallback with
    | some fb => fb.lookupAll text
    | none => []
  else m.regularMatches text

/-- Embedding of `RegexMatcher::count` (lines 247-255): the regular shards'
sizes, plus `self.fallback.iter().count()` — which counts the `Option`'s
occupancy (0 or 1), not the fallback shard's size. -/
def RegexMatcher.count {α : Type} (m : RegexMatcher α) : ℕ :=
  (match m.shards with
   | some shs => ((shs.items).map RegexMatcherShard.count).sum
   | none => 0)
  + (match m.fallback with
     | some _ => 1
     | none => 0)

/-- Embedding of `RegexMatcher::items` (lines 262-270): all items of all
prefix shards, then the fallback shard's items. -/
def RegexMatcher.itemsList {α : Type} (m : RegexMatcher α) : List α :=
  (match m.shards with
   | some shs => (shs.items).flatMap RegexMatcherShard.items
   | none => [])
  ++ (match m.fallback with
      | some fb => fb.items
      | none => [])

/-! ## The mod database -/

/-- Association-list lookup, embedding `HashMap::get` (iteration order of the
source `HashMap`s is arbitrary; every theorem below quantifies over the list
order, so nothing depends on it). -/
def lookupAssoc {κ α : Type} [DecidableEq κ] (l : List (κ × α)) (k : κ) : Option α :=
  (l.find? (fun pr => pr.1 = k)).map Prod.snd

/-- Embedding of `Database` (src/stashes/model/item/mods/database.rs):
the primary id index and the per-mod-type sharded matchers. -/
structure Database where
  byTypeAndId : List (ModType × List ModInfo)
  matchersByType : List (ModType × RegexMatcher ModInfo)

/-- Embedding of `Database::new` (lines 44-72): one `with_shards` matcher
per mod type, over that type's `(regex, info)` pairs.  (The data files and
the prefix file are not part of the sources, so both are parameters here;
regex compilation failures cannot occur in the embedding.) -/
def Database.new (prefixes : List Pat) (byTypeAndId : List (ModType × List ModInfo)) :
    Database :=
  Database.mk byTypeAndId
    (byTypeAndId.map (fun pr =>
      (pr.1, RegexMatcher.withShards prefixes (pr.2.map (fun mi => (mi.pat, mi))))))

/-- Embedding of `Database::len` (lines 82-86). -/
def Database.len (db : Database) : ℕ :=
  (db.matchersByType.map (fun pr => pr.2.count)).sum

/-- Embedding of `Database::iter` (lines 76-80), as the list of yielded
mods. -/
def Database.iterList (db : Database) : List ModInfo :=
  db.matchersByType.flatMap (fun pr => pr.2.itemsList)

/-- Embedding of `Database::resolve`
(src/stashes/model/item/mods/database.rs, lines 99-125): look up the
per-type matcher, collect all matches, tie-break multiple matches by
longest pattern string (stable sort, pick the first), then parse the mod
values out of the text.  The source `expect`s the parse (a failed parse
after a successful match would be a panic); the embedding returns `none`
in that impossible branch. -/
def Database.resolve (db : Database) (modType : ModType) (text : List Char) :
    Option (ModInfo × List ℚ) :=
  match lookupAssoc db.matchersByType modType with
  | none => none
  | some matcher =>
    match matcher.lookupAll text with
    | [] => none
    | [mi] => (mi.parseText text).map (fun vs => (mi, vs))
    | m1 :: m2 :: rest =>
      match sortDescBy (fun mi => mi.pat.strLen) (m1 :: m2 :: rest) with
      | [] => none
      | w :: _ => (w.parseText text).map (fun vs => (w, vs))

/-! ## Currency, Price, Label -/

/-- Embedding of the `Currency` enum (src/model/currency.rs). -/
inductive Currency where
  | orbOfAlteration
  | orbOfFusing
  | orbOfAlchemy
  | silverCoin
  | gemcuttersPrism
  | exaltedOrb
  | chromaticOrb
  | jewellersOrb
  | orbOfChance
  | chaosOrb
  | cartographersChisel
  | orbOfScouring
  | blessedOrb
  | orbOfRegret
  | regalOrb
  | divineOrb
  | vaalOrb
deriving DecidableEq

/-- The serde rename table of `Currency` (exact, case-sensitive match). -/
def currencyOfTag (s : List Char) : Option Currency :=
  if s = chars "alt" then some .orbOfAlteration
  else if s = chars "fuse" then some .orbOfFusing
  else if s = chars "alch" then some .orbOfAlchemy
  else if s = chars "silver" then some .silverCoin
  else if s = chars "gcp" then some .gemcuttersPrism
  else if s = chars "exa" then some .exaltedOrb
  else if s = chars "chrom" then some .chromaticOrb
  else if s = chars "jew" then some .jewellersOrb
  else if s = chars "chance" then some .orbOfChance
  else if s = chars "chaos" then some .chaosOrb
  else if s = chars "chisel" then some .cartographersChisel
  else if s = chars "scour" then some .orbOfScouring
  else if s = chars "blessed" then some .blessedOrb
  else if s = chars "regret" then some .orbOfRegret
  else if s = chars "regal" then some .regalOrb
  else if s = chars "divine" then some .divineOrb
  else if s = chars "vaal" then some .vaalOrb
  else none

/-- Embedding of `Quasi<Currency>` (src/common/util/quasi.rs): the real
deserialized value, or the undeserialized source as a substitute.  The
source constructors are `True` / `Substitute`. -/
inductive QuasiCurrency where
  | trueVal (c : Currency)
  | substitute (s : List Char)
deriving DecidableEq

/-- `Quasi<Currency>` deserialization: fall back to the source string. -/
def quasiCurrencyOf (s : List Char) : QuasiCurrency :=
  match currencyOfTag s with
  | some c => .trueVal c
  | none => .substitute s

/-- Embedding of `Price` (src/stashes/model/price.rs): amount and quasi
currency. -/
structure Price where
  amount : ℚ
  currency : QuasiCurrency
deriving DecidableEq

/-- Embedding of `PriceVisitor::visit_str` (src/stashes/de/price.rs, with
the same amount grammar as src/model/de/price.rs `parse_amount`): a
non-empty string of exactly two whitespace-separated parts, the first a
number, the second a quasi-currency tag. -/
def priceVisitStr (v : List Char) : Except (List Char) Price :=
  if v = [] then .error (chars "invalid length 0, expected non-empty string")
  else
    match splitWsC v with
    | [a, c] =>
      match parseNumber a with
      | .ok q => .ok (Price.mk q (quasiCurrencyOf c))
      | .error _ => .error (chars "cannot parse price amount")
    | _ => .error (chars "invalid price value")

/-- Embedding of `Label` (src/model/label.rs, identical enum in
src/model/basics.rs). -/
inductive Label where
  | empty
  | cosmetic (s : List Char)
  | exactPrice (p : Price)
  | negotiablePrice (p : Price)
  | unknown (tag : List Char) (value : List Char)
deriving DecidableEq

/-- Whether the note text starts with a tilde. -/
def startsTilde : List Char → Bool
  | '~' :: _ => true
  | _ => false

/-- Does a match of the separator regex `\s+[/|]` start here?  It does
exactly when the head is whitespace and the first non-whitespace character
after this whitespace run is `'/'` or `'|'`. -/
def sepHere : List Char → Bool
  | [] => false
  | c :: cs => if isWs c then sepHere cs else (c = '/' ∨ c = '|')

/-- `SEP_RE.find(v)`: start index of the leftmost match of `\s+[/|]`. -/
def sepSearch : List Char → Option ℕ
  | [] => none
  | c :: cs =>
    if isWs c ∧ sepHere cs then some 0
    else (sepSearch cs).map (· + 1)

/-- Fuel-counted core of `trim_left_matches`. -/
def stripAllPfx (pat : List Char) : ℕ → List Char → List Char
  | 0, v => v
  | n + 1, v =>
    if pat ≠ [] ∧ startsWithL pat v then stripAllPfx pat n (v.drop pat.length)
    else v

/-- Rust `str::trim_left_matches(pat)`: strip every leading occurrence of
the pattern (the fuel `v.length` dominates the possible iteration count). -/
def trimLeftMatchesL (pat v : List Char) : List Char :=
  stripAllPfx pat v.length v

/-- Embedding of `LabelVisitor::visit_str` (src/model/de/label.rs, lines
31-74): empty input is a cosmetic empty label; for tilde-prefixed input
everything from the first `\s+[/|]` separator on is stripped (with
trailing whitespace); then `~price` / `~b/o` prefixes are parsed as prices,
any other tilde tag is an error, and everything else is a cosmetic label. -/
def labelVisitStr (v0 : List Char) : Except (List Char) Label :=
  if v0 = [] then .ok (Label.cosmetic [])
  else
    let v := if startsTilde v0 then
        match sepSearch v0 with
        | some i => trimRightC (v0.take i)
        | none => v0
      else v0
    if startsWithL (chars "~price") v then
      (priceVisitStr (trimLeftC (trimLeftMatchesL (chars "~price") v))).map Label.exactPrice
    else if startsWithL (chars "~b/o") v then
      (priceVisitStr (trimLeftC (trimLeftMatchesL (chars "~b/o") v))).map Label.negotiablePrice
    else if startsTilde v then
      .error (chars "unknown label tag: ~" ++ ((splitWsC (trimLeftMatchesL (chars "~") v)).headD []))
    else .ok (Label.cosmetic v)

/-! ## League and the stash league pluck -/

/-- Embedding of `League` (src/model/league.rs). -/
structure League where
  season : Option (List Char)
  temporary : Bool
  hardcore : Bool
  ssf : Bool
deriving DecidableEq

/-- `League::standard()`. -/
def League.standard : League := League.mk none false false false

/-- The common league-name words of the league deserializer. -/
def leagueCommonWords : List (List Char) :=
  [chars "Standard", chars "Hardcore", chars "HC", chars "SSF"]

/-- One word of a league name is valid if it is a common word or a
capitalized season word (first letter uppercase, the rest lowercase, length
above one). -/
def leagueWordValid (w : List Char) : Bool :=
  leagueCommonWords.contains w ||
    (decide (1 < w.length)
     && (match w.head? with | some c => c.isUpper | none => false)
     && w.tail.all Char.isLower)

/-- Rust `str::contains(pat)`: the pattern occurs as a contiguous substring. -/
def containsSub (pat v : List Char) : Bool :=
  match v with
  | [] => pat = []
  | _ :: rest => startsWithL pat v || containsSub pat rest

/-- Embedding of `LeagueVisitor::visit_str` (src/model/de/league.rs, lines
30-76): reject empty or non-capitalized input, special-case the four
permanent league names, otherwise derive hardcore/SSF flags by substring
tests; the season is the concatenation of all non-common words. -/
def leagueVisitStr (v : List Char) : Except (List Char) League :=
  if v = [] then .error (chars "invalid length 0, expected non-empty string")
  else if ¬ (splitWsC v).all leagueWordValid then
    .error (chars "invalid value, expected string of capitalized words or acronyms")
  else
    let base :=
      if v = chars "Standard" then League.mk none false false false
      else if v = chars "Hardcore" then League.mk none false true false
      else if v = chars "SSF Standard" then League.mk none false false true
      else if v = chars "SSF Hardcore" then League.mk none false true true
      else
        let hc := containsSub (chars "Hardcore") v ∨ containsSub (chars "HC") v
        let ssf := containsSub (chars "SSF") v
        League.mk none true hc ssf
    let season := ((splitWsC v).filter (fun w => w ∉ leagueCommonWords)).flatMap id
    .ok { base with season := if season = [] then none else some season }

/-- The league-plucking step of `StashVisitor::visit_map`
(src/model/de/stash.rs, lines 70-85 and 114): collect the distinct
`"league"` values found on the items; more than one distinct value is a
decode error (which aborts the whole stash decode via `return Err`); the
single value — or `"Standard"` for an empty stash — is deserialized as the
stash's league. -/
def stashLeagueOfItems (items : List (Option (List Char))) : Except (List Char) League :=
  let leagues := (items.filterMap id).dedup
  if 1 < leagues.length then
    .error (chars "items from multiple leagues in a single stash tab?!")
  else leagueVisitStr (leagues.headD (chars "Standard"))

/-! ## Item sockets -/

/-- Embedding of `Color` (src/model/item/sockets.rs). -/
inductive Color where
  | red
  | green
  | blue
  | white
deriving DecidableEq

/-- The serde rename table of `Color`. -/
def colorOf (s : List Char) : Option Color :=
  if s = chars "R" then some .red
  else if s = chars "G" then some .green
  else if s = chars "B" then some .blue
  else if s = chars "W" then some .white
  else none

/-- One element of the `"sockets"` JSON array, with the two fields the
decoder reads (`None` = field absent or not of the expected JSON type). -/
structure SocketEntry where
  sColour : Option (List Char)
  group : Option ℕ
deriving DecidableEq

/-- Embedding of `SocketGroup` (id is the source's `u8`, i.e. the group
index mod 256). -/
structure SocketGroup where
  id : ℕ
  colors : List Color
deriving DecidableEq

/-- Embedding of `ItemSockets`. -/
structure ItemSockets where
  abyssalCount : ℕ
  regularGroups : List SocketGroup
deriving DecidableEq

/-- `regular_groups.entry(group).or_insert_with(Vec::new).push(color)`:
append the color to the group's vector, creating the group if new. -/
def addColor : List (ℕ × List Color) → ℕ → Color → List (ℕ × List Color)
  | [], g, c => [(g, [c])]
  | (g0, cs0) :: rest, g, c =>
    if g0 = g then (g0, cs0 ++ [c]) :: rest
    else (g0, cs0) :: addColor rest g c

/-- Stable insertion into a list sorted ascending by `key`. -/
def insertAscBy {α : Type} (key : α → ℕ) (x : α) : List α → List α
  | [] => [x]
  | y :: ys => if key x < key y then x :: y :: ys else y :: insertAscBy key x ys

/-- Stable ascending sort by `key` (`itertools::sorted` / `sorted_by_key`). -/
def sortAscBy {α : Type} (key : α → ℕ) (l : List α) : List α :=
  l.foldr (insertAscBy key) []

/-- The element loop of `ItemSocketsVisitor::visit_seq`
(src/stashes/de/sockets.rs, lines 44-58): each socket needs an `sColour`;
abyssal (`"A"`) sockets are only counted; regular sockets need a `group`
and a known color, and are accumulated per group. -/
def socketsLoop :
    List SocketEntry → ℕ → List (ℕ × List Color) →
      Except (List Char) (ℕ × List (ℕ × List Color))
  | [], ab, gs => .ok (ab, gs)
  | e :: rest, ab, gs =>
    match e.sColour with
    | none => .error (chars "missing field sColour")
    | some col =>
      if col = chars "A" then socketsLoop rest (ab + 1) gs
      else
        match e.group with
        | none => .error (chars "missing field group")
        | some g =>
          match colorOf col with
          | none => .error (chars "unknown variant of socket colour")
          | some c => socketsLoop rest ab (addColor gs g c)

/-- Embedding of `ItemSocketsVisitor::visit_seq`
(src/stashes/de/sockets.rs, lines 33-76): an empty array is the default
(no sockets); otherwise run the loop, then require the collected regular
group indices, sorted, to be exactly `0..count` (a gap is a decode error),
and emit the groups sorted by index. -/
def decodeSockets (entries : List SocketEntry) : Except (List Char) ItemSockets :=
  if entries = [] then .ok (ItemSockets.mk 0 [])
  else
    match socketsLoop entries 0 [] with
    | .error e => .error e
    | .ok (ab, gs) =>
      let idxs := sortAscBy id (gs.map Prod.fst)
      if idxs = List.range (gs.map Prod.fst).length then
        .ok (ItemSockets.mk ab
          ((sortAscBy Prod.fst gs).map (fun pr => SocketGroup.mk (pr.1 % 256) pr.2)))
      else .error (chars "socket group indices not in a contiguous range")

/-- `Except.isOk`, for stating that a decode fails. -/
def isOkE {ε α : Type} : Except ε α → Bool
  | .ok _ => true
  | .error _ => false

/-- The regular (non-abyssal) group indices carried by a sockets array, as
written in the input (used to state the contiguity claim about inputs). -/
def regIdxOf (entries : List SocketEntry) : List ℕ :=
  entries.filterMap (fun e =>
    match e.sColour with
    | some col => if col = chars "A" then none else e.group
    | none => none)

/-- The distinct regular group indices of the input, sorted ascending. -/
def sortedRegIdx (entries : List SocketEntry) : List ℕ :=
  sortAscBy id (regIdxOf entries).dedup

/-! ## Concrete instances used by the claim theorems -/

/-- C1 counterexample: a one-parameter template whose pattern is a strict
superset of a zero-parameter template of the same mod type. -/
def rtLongMod : ModInfo := mkModInfo (ModId.mk ModType.explicit 1) (chars "x #")

/-- C1 counterexample: the shadowed zero-parameter template. -/
def rtShortMod : ModInfo := mkModInfo (ModId.mk ModType.explicit 2) (chars "x 1")

/-- C1 counterexample database. -/
def rtDb : Database := Database.new [] [(ModType.explicit, [rtLongMod, rtShortMod])]

/-- C1 witness template. -/
def rtwMod : ModInfo := mkModInfo (ModId.mk ModType.explicit 9) (chars "+#% increased Awesomeness")

/-- C1 witness bucket list. -/
def rtwBuckets : List (ModType × List ModInfo) := [(ModType.explicit, [rtwMod])]

/-- C2 witness: the longer of two overlapping templates. -/
def tieLongMod : ModInfo := mkModInfo (ModId.mk ModType.implicit 1) (chars "x #")

/-- C2 witness: a shorter template overlapping the longer one. -/
def tieShortMod : ModInfo := mkModInfo (ModId.mk ModType.implicit 2) (chars "x 1")

/-- C2 witness: a third overlapping template (same pattern text up to case,
so it also matches `"x 1"` case-insensitively, again shorter than
`tieLongMod`). -/
def tieThirdMod : ModInfo := mkModInfo (ModId.mk ModType.implicit 3) (chars "X 1")

/-- C2 witness bucket list: three templates of one mod type, all matching
the text `"x 1"`, with a unique longest pattern. -/
def tieBuckets : List (ModType × List ModInfo) :=
  [(ModType.implicit, [tieLongMod, tieShortMod, tieThirdMod])]

/-- C2 witness database. -/
def tieDb : Database := Database.new [] tieBuckets

/-- C3 witness: prefix list with the single prefix `x`. -/
def c3wPfx : List Pat := [prefixPatOfLine (chars "x")]

/-- C3 witness: one template in the `x` shard, one in the catch-all. -/
def c3wMapping : List (Pat × ℕ) :=
  [(regexFromModTextTemplate (chars "x #"), 1), (regexFromModTextTemplate (chars "y #"), 2)]

/-- C3 witness matcher. -/
def c3wM : RegexMatcher ℕ := RegexMatcher.withShards c3wPfx c3wMapping

/-- C4: first template landing in the fallback shard. -/
def lenBugModA : ModInfo := mkModInfo (ModId.mk ModType.explicit 1) (chars "y 1")

/-- C4: second template landing in the fallback shard. -/
def lenBugModB : ModInfo := mkModInfo (ModId.mk ModType.explicit 2) (chars "y 2")

/-- C4: the input records (one mod type, two templates). -/
def lenBugRecords : List (ModType × List ModInfo) := [(ModType.explicit, [lenBugModA, lenBugModB])]

/-- C4: database built with a prefix (`x`) matching neither template, so
both land in the fallback shard. -/
def lenBugDb : Database := Database.new [prefixPatOfLine (chars "x")] lenBugRecords

/-- C7/C8 helper: a regular red socket in the given group. -/
def redSocket (g : ℕ) : SocketEntry := SocketEntry.mk (some (chars "R")) (some g)

/-- C7: socket entries with group indices 0, 1, 3 (gap at 2). -/
def gapSockets : List SocketEntry := [redSocket 0, redSocket 1, redSocket 3]

/-- C7: socket entries with contiguous group indices 0, 1, 2. -/
def contigSockets : List SocketEntry :=
  [SocketEntry.mk (some (chars "R")) (some 0),
   SocketEntry.mk (some (chars "G")) (some 1),
   SocketEntry.mk (some (chars "B")) (some 2)]

/-- C8 witness: a template without placeholders. -/
def noParamMod : ModInfo := mkModInfo (ModId.mk ModType.explicit 7) (chars "Has no sockets")

/-! ## Theorems -/

/-- C4: the claim is right and the code is wrong.  `Database::len` sums
`RegexMatcher::count`, whose fallback contribution is
`self.fallback.iter().count()` — the occupancy of the `Option` (0 or 1)
instead of the fallback shard's size.  For a build from two records that
both land in the fallback shard, `len()` is `1` while there are two input
records and `iter()` correctly yields both templates exactly once. -/
theorem c4_len_miscounts_fallback_shard :
    lenBugDb.len = 1
    ∧ lenBugDb.iterList = [lenBugModA, lenBugModB]
    ∧ lenBugModA ≠ lenBugModB
    ∧ (lenBugRecords.map (fun pr => pr.2.length)).sum = 2
    ∧ lenBugDb.len ≠ (lenBugRecords.map (fun pr => pr.2.length)).sum := by
  decide

/-- C5: the claim is right and the code is wrong.  The only label decoder
(`LabelVisitor::visit_str`, src/model/de/label.rs) returns a hard error for
an unrecognized tilde tag instead of the documented `Label::Unknown`
variant, and decodes the empty string to `Cosmetic("")` instead of
`Label::Empty` (the enum's documented default). -/
theorem c5_unknown_tag_errors_and_empty_is_cosmetic :
    labelVisitStr (chars "~unknown foo") = .error (chars "unknown label tag: ~unknown")
    ∧ labelVisitStr (chars "") = .ok (Label.cosmetic [])
    ∧ (∀ t w, Except.error (chars "unknown label tag: ~unknown") ≠
        Except.ok (ε := List Char) (Label.unknown t w))
    ∧ Label.cosmetic [] ≠ Label.empty := by
  refine ⟨by decide, by decide, ?_, by decide⟩
  intro t w h
  cases h

/-- C6 counterexample: `parse_number("abc")` is a `Float` error, not the
`Syntax` error the claim requires (a one-part input that fails both the
integer and the float parse maps the float failure into the `Float`
variant; the `Syntax` variant is reserved for part counts other than one
or two). -/
theorem c6_counterexample_abc_is_float_error :
    parseNumber (chars "abc") = .error ParseNumberError.float
    ∧ ParseNumberError.float ≠ ParseNumberError.shape := by
  decide

/-- C6 amended: `parse_number` maps `"1"` to 1, `"1.5"` to 3/2 and
`"10/19"` to the exact quotient 10/19; a `Syntax` error (distinct from the
`Float` and `Rational` cases) is produced exactly for inputs with three or
more '/'-separated parts, while a single unparsable part such as `"abc"`
is a `Float` error. -/
theorem c6_parse_number_amended :
    parseNumber (chars "1") = .ok 1
    ∧ parseNumber (chars "1.5") = .ok (mkRat 3 2)
    ∧ parseNumber (chars "10/19") = .ok (mkRat 10 19)
    ∧ mkRat 3 2 = (3 : ℚ) / 2
    ∧ mkRat 10 19 = (10 : ℚ) / 19
    ∧ parseNumber (chars "abc") = .error ParseNumberError.float
    ∧ ParseNumberError.shape ≠ ParseNumberError.float
    ∧ ParseNumberError.shape ≠ ParseNumberError.rational
    ∧ (∀ s : List Char, 2 < ((trimC s).splitOn '/').length →
        parseNumber s = .error ParseNumberError.shape) := by
  refine ⟨by decide, by decide, by decide, by norm_num [mkRat], by norm_num [mkRat],
    by decide, by decide, by decide, ?_⟩
  intro s h
  rcases hn : (trimC s).splitOn '/' with _ | ⟨a, _ | ⟨b, _ | ⟨c, tl⟩⟩⟩ <;>
    rw [hn] at h <;> simp at h
  simp [parseNumber, hn]

/-- C6 amended witness at a concrete three-part input. -/
theorem c6_parse_number_amended_witness :
    2 < ((trimC (chars "1/2/3")).splitOn '/').length
    ∧ parseNumber (chars "1/2/3") = .error ParseNumberError.shape :=
  ⟨by decide, c6_parse_number_amended.2.2.2.2.2.2.2.2 (chars "1/2/3") (by decide)⟩

/-- C8: confirmed.  `ModInfo::parse_text` returns `Some` empty values for
every input whenever the template has no placeholders — the documented
"None if the text does not match" behaviour only happens for templates
with at least one parameter (where a failed capture yields `None`). -/
theorem c8_zero_param_parse_text_always_some :
    (∀ (mi : ModInfo) (text : List Char), mi.paramCount = 0 → mi.parseText text = some [])
    ∧ (∀ (mi : ModInfo) (text : List Char), 0 < mi.paramCount →
        capsA mi.pat.anch mi.pat.segs (trimC text) = [] → mi.parseText text = none) := by
  constructor
  · intro mi text h
    simp [ModInfo.parseText, h]
  · intro mi text h hcaps
    have hne : ¬ mi.paramCount = 0 := by omega
    simp [ModInfo.parseText, hne, hcaps]

/-- C8 witness: the zero-parameter template `"Has no sockets"` parses the
completely unrelated text `"+10% increased Attack Speed"` to `Some([])`,
even though its pattern does not match that text. -/
theorem c8_zero_param_parse_text_always_some_witness :
    noParamMod.paramCount = 0
    ∧ noParamMod.parseText (chars "+10% increased Attack Speed") = some []
    ∧ noParamMod.pat.matchesB (chars "+10% increased Attack Speed") = false :=
  ⟨by decide,
   c8_zero_param_parse_text_always_some.1 noParamMod (chars "+10% increased Attack Speed")
     (by decide),
   by decide⟩

/-- C9: confirmed.  The league-plucking step of `StashVisitor::visit_map`
fails the whole stash decode whenever the items carry more than one
distinct `"league"` value, and decodes the league `"Standard"` (i.e.
`League::standard()`) when the items array is empty or no item carries a
league. -/
theorem c9_stash_league_pluck :
    (∀ items : List (Option (List Char)),
      1 < ((items.filterMap id).dedup).length →
      isOkE (stashLeagueOfItems items) = false)
    ∧ (∀ items : List (Option (List Char)),
      items.filterMap id = [] →
      stashLeagueOfItems items = .ok League.standard) := by
  constructor
  · intro items h
    simp only [stashLeagueOfItems]
    rw [if_pos h]
    rfl
  · intro items h
    simp only [stashLeagueOfItems, h]
    decide

/-- C9 witness: two distinct leagues fail; an empty items array decodes to
the standard league. -/
theorem c9_stash_league_pluck_witness :
    isOkE (stashLeagueOfItems [some (chars "Abyss"), some (chars "Standard")]) = false
    ∧ stashLeagueOfItems [] = .ok League.standard :=
  ⟨c9_stash_league_pluck.1 [some (chars "Abyss"), some (chars "Standard")] (by decide),
   c9_stash_league_pluck.2 [] (by decide)⟩

/-- C3: confirmed (read, as in the spec, about the shard query itself).
For any matcher built by `with_shards` that has prefix shards and a
fallback shard, `lookup_all` returns the fallback shard's matches exactly
when querying the prefix shards yields zero matches; whenever the prefix
shards yield at least one match, the result is exactly those prefix-shard
matches and the fallback is not consulted. -/
theorem c3_fallback_iff_no_regular_matches {α : Type} :
    ∀ (ps : List Pat) (mapping : List (Pat × α)) (text : List Char)
      (shs : RegexMatcherShard (RegexMatcherShard α)) (fb : RegexMatcherShard α),
      (RegexMatcher.withShards ps mapping).shards = some shs →
      (RegexMatcher.withShards ps mapping).fallback = some fb →
      (((RegexMatcher.withShards ps mapping).regularMatches text = [] →
          (RegexMatcher.withShards ps mapping).lookupAll text = fb.lookupAll text)
        ∧ ((RegexMatcher.withShards ps mapping).regularMatches text ≠ [] →
          (RegexMatcher.withShards ps mapping).lookupAll text =
            (RegexMatcher.withShards ps mapping).regularMatches text)) := by
  intro ps mapping text shs fb hshs hfb
  constructor
  · intro h
    simp [RegexMatcher.lookupAll, h, hfb]
  · intro h
    simp [RegexMatcher.lookupAll, h]

/-- C3 witness: on a concrete two-shard matcher, a text matching only the
catch-all template is answered from the fallback shard, and a text matched
by a prefix shard is answered with exactly the prefix-shard matches. -/
theorem c3_fallback_iff_no_regular_matches_witness :
    c3wM.lookupAll (chars "y 3") =
      (RegexMatcherShard.mk [(regexFromModTextTemplate (chars "y #"), 2)]).lookupAll (chars "y 3")
    ∧ c3wM.lookupAll (chars "y 3") = [2]
    ∧ c3wM.lookupAll (chars "x 3") = c3wM.regularMatches (chars "x 3")
    ∧ c3wM.lookupAll (chars "x 3") = [1] := by
  have h1 := (c3_fallback_iff_no_regular_matches c3wPfx c3wMapping (chars "y 3")
    (RegexMatcherShard.mk
      [(prefixPatOfLine (chars "x"), RegexMatcherShard.mk [(regexFromModTextTemplate (chars "x #"), 1)])])
    (RegexMatcherShard.mk [(regexFromModTextTemplate (chars "y #"), 2)])
    (by decide) (by decide)).1 (by decide)
  have h2 := (c3_fallback_iff_no_regular_matches c3wPfx c3wMapping (chars "x 3")
    (RegexMatcherShard.mk
      [(prefixPatOfLine (chars "x"), RegexMatcherShard.mk [(regexFromModTextTemplate (chars "x #"), 1)])])
    (RegexMatcherShard.mk [(regexFromModTextTemplate (chars "y #"), 2)])
    (by decide) (by decide)).2 (by decide)
  exact ⟨h1, by decide, h2, by decide⟩

/-- C10: confirmed.  For tilde-prefixed notes the decoder truncates at the
first `\s+[/|]` separator (dropping trailing whitespace) before parsing, so
`"~b/o 10 chaos / some comment"` decodes to the same negotiable price as
`"~b/o 10 chaos"`; a note that does not start with a tilde is decoded whole
as a cosmetic label, never truncated. -/
theorem c10_tilde_separator_strip :
    labelVisitStr (chars "~b/o 10 chaos / some comment") = labelVisitStr (chars "~b/o 10 chaos")
    ∧ labelVisitStr (chars "~b/o 10 chaos / some comment") =
        .ok (Label.negotiablePrice (Price.mk 10 (QuasiCurrency.trueVal Currency.chaosOrb)))
    ∧ (∀ v : List Char, v ≠ [] → startsTilde v = false →
        labelVisitStr v = .ok (Label.cosmetic v)) := by
  refine ⟨by decide, by decide, ?_⟩
  intro v hne ht
  match v, hne with
  | c :: cs, _ =>
    have hc : c ≠ '~' := by
      intro h
      rw [h] at ht
      simp [startsTilde] at ht
    have hp : chars "~price" = '~' :: chars "price" := rfl
    have hb : chars "~b/o" = '~' :: chars "b/o" := rfl
    simp [labelVisitStr, ht, hp, hb, startsWithL, Ne.symm hc]

/-- C10 witness: a concrete non-tilde note is decoded whole. -/
theorem c10_tilde_separator_strip_witness :
    labelVisitStr (chars "hello / world") = .ok (Label.cosmetic (chars "hello / world")) :=
  c10_tilde_separator_strip.2.2 (chars "hello / world") (by decide) (by decide)

/-- Keys after `addColor`: the group is inserted, everything else kept. -/
theorem addColor_fst_mem (gs : List (ℕ × List Color)) (g : ℕ) (c : Color) (n : ℕ) :
    n ∈ (addColor gs g c).map Prod.fst ↔ n ∈ gs.map Prod.fst ∨ n = g := by
  induction gs with
  | nil => simp [addColor]
  | cons hd tl ih =>
    obtain ⟨g0, cs0⟩ := hd
    by_cases hg : g0 = g
    · subst hg
      simp [addColor]
      tauto
    · simp [addColor, hg, ih]
      tauto

/-- `addColor` keeps the group keys duplicate-free. -/
theorem addColor_fst_nodup (gs : List (ℕ × List Color)) (g : ℕ) (c : Color)
    (h : (gs.map Prod.fst).Nodup) : ((addColor gs g c).map Prod.fst).Nodup := by
  induction gs with
  | nil => simp [addColor]
  | cons hd tl ih =>
    obtain ⟨g0, cs0⟩ := hd
    simp only [List.map_cons, List.nodup_cons] at h
    by_cases hg : g0 = g
    · subst hg
      have he : addColor ((g0, cs0) :: tl) g0 c = (g0, cs0 ++ [c]) :: tl := by
        simp [addColor]
      rw [he]
      simp only [List.map_cons, List.nodup_cons]
      exact h
    · simp only [addColor, if_neg hg, List.map_cons, List.nodup_cons]
      refine ⟨?_, ih h.2⟩
      rw [addColor_fst_mem]
      push_neg
      exact ⟨h.1, hg⟩

/-- Invariant of the socket loop: on success, the collected group keys stay
duplicate-free and are exactly the accumulator's keys plus the regular
group indices of the remaining entries. -/
theorem socketsLoop_keys :
    ∀ (entries : List SocketEntry) (ab : ℕ) (gs : List (ℕ × List Color))
      (ab2 : ℕ) (gs2 : List (ℕ × List Color)),
      socketsLoop entries ab gs = .ok (ab2, gs2) →
      ((gs.map Prod.fst).Nodup → (gs2.map Prod.fst).Nodup)
      ∧ (∀ n, n ∈ gs2.map Prod.fst ↔ n ∈ gs.map Prod.fst ∨ n ∈ regIdxOf entries) := by
  intro entries
  induction entries with
  | nil =>
    intro ab gs ab2 gs2 h
    simp only [socketsLoop] at h
    cases h
    simp [regIdxOf]
  | cons e rest ih =>
    intro ab gs ab2 gs2 h
    simp only [socketsLoop] at h
    rcases hcol : e.sColour with _ | col
    · rw [hcol] at h
      cases h
    · rw [hcol] at h
      dsimp only at h
      by_cases hA : col = chars "A"
      · rw [if_pos hA] at h
        have hr := ih (ab + 1) gs ab2 gs2 h
        refine ⟨hr.1, ?_⟩
        intro n
        rw [hr.2 n]
        simp [regIdxOf, hcol, hA]
      · rw [if_neg hA] at h
        rcases hgrp : e.group with _ | g
        · rw [hgrp] at h
          cases h
        · rw [hgrp] at h
          dsimp only at h
          rcases hco : colorOf col with _ | c
          · rw [hco] at h
            cases h
          · rw [hco] at h
            dsimp only at h
            have hr := ih ab (addColor gs g c) ab2 gs2 h
            constructor
            · intro hnd
              exact hr.1 (addColor_fst_nodup gs g c hnd)
            · intro n
              rw [hr.2 n, addColor_fst_mem]
              have hreg : regIdxOf (e :: rest) = g :: regIdxOf rest := by
                simp [regIdxOf, hcol, hA, hgrp]
              rw [hreg]
              simp
              tauto

/-- Stable insertion is a permutation of consing. -/
theorem insertAscBy_perm {α : Type} (key : α → ℕ) (x : α) (l : List α) :
    (insertAscBy key x l).Perm (x :: l) := by
  induction l with
  | nil => rfl
  | cons y ys ih =>
    simp only [insertAscBy]
    by_cases h : key x < key y
    · rw [if_pos h]
    · rw [if_neg h]
      exact (ih.cons y).trans (List.Perm.swap x y ys)

/-- The stable ascending sort is a permutation of its input. -/
theorem sortAscBy_perm {α : Type} (key : α → ℕ) (l : List α) :
    (sortAscBy key l).Perm l := by
  induction l with
  | nil => rfl
  | cons x xs ih =>
    exact (insertAscBy_perm key x (sortAscBy key xs)).trans (ih.cons x)

/-- Inserting into a `≤`-sorted list of naturals keeps it sorted. -/
theorem insertAsc_id_sorted (x : ℕ) (l : List ℕ) (h : l.Sorted (· ≤ ·)) :
    (insertAscBy id x l).Sorted (· ≤ ·) := by
  induction l with
  | nil => simp [insertAscBy]
  | cons y ys ih =>
    rw [List.sorted_cons] at h
    simp only [insertAscBy, id]
    by_cases hlt : x < y
    · rw [if_pos hlt]
      rw [List.sorted_cons]
      constructor
      · intro b hb
        rcases List.mem_cons.1 hb with hb | hb
        · omega
        · have := h.1 b hb
          omega
      · rw [List.sorted_cons]
        exact h
    · rw [if_neg hlt]
      rw [List.sorted_cons]
      refine ⟨?_, ih h.2⟩
      intro b hb
      have := (insertAscBy_perm id x ys).mem_iff.1 hb
      rcases List.mem_cons.1 this with hb2 | hb2
      · omega
      · exact h.1 b hb2

/-- The stable ascending sort of naturals is `≤`-sorted. -/
theorem sortAsc_id_sorted (l : List ℕ) : (sortAscBy id l).Sorted (· ≤ ·) := by
  induction l with
  | nil => simp [sortAscBy]
  | cons x xs ih => exact insertAsc_id_sorted x (sortAscBy id xs) ih

/-- Two duplicate-free natural-number lists with the same members sort to
the same list. -/
theorem sortAsc_eq_of_mem_nodup {l1 l2 : List ℕ} (h1 : l1.Nodup) (h2 : l2.Nodup)
    (hm : ∀ n, n ∈ l1 ↔ n ∈ l2) : sortAscBy id l1 = sortAscBy id l2 := by
  have hperm : l1.Perm l2 := (List.perm_ext_iff_of_nodup h1 h2).2 hm
  have : (sortAscBy id l1).Perm (sortAscBy id l2) :=
    ((sortAscBy_perm id l1).trans hperm).trans (sortAscBy_perm id l2).symm
  exact List.eq_of_perm_of_sorted this (sortAsc_id_sorted l1) (sortAsc_id_sorted l2)

/-- C7: confirmed (against the final revision of the sockets decoder,
src/stashes/de/sockets.rs; the older src/model/de/sockets.rs revision has
the check as an open TODO).  A sockets array whose regular entries carry
group indices that are not a contiguous zero-based range never decodes
successfully, while the contiguous `0,1,2` example decodes into three
groups ordered by index. -/
theorem c7_socket_group_contiguity :
    (∀ entries : List SocketEntry,
      sortedRegIdx entries ≠ List.range (sortedRegIdx entries).length →
      isOkE (decodeSockets entries) = false)
    ∧ decodeSockets contigSockets =
        .ok (ItemSockets.mk 0
          [SocketGroup.mk 0 [Color.red], SocketGroup.mk 1 [Color.green],
           SocketGroup.mk 2 [Color.blue]]) := by
  constructor
  · intro entries h
    by_cases hne : entries = []
    · subst hne
      exact absurd (by decide : sortedRegIdx [] = List.range (sortedRegIdx []).length) h
    · simp only [decodeSockets]
      rw [if_neg hne]
      rcases hl : socketsLoop entries 0 [] with e | ⟨ab, gs⟩
      · rfl
      · have hk := socketsLoop_keys entries 0 [] ab gs hl
        have hnodup : (gs.map Prod.fst).Nodup := hk.1 (by simp)
        have hmem : ∀ n, n ∈ gs.map Prod.fst ↔ n ∈ (regIdxOf entries).dedup := by
          intro n
          rw [hk.2 n]
          simp [List.mem_dedup]
        have hsorteq : sortAscBy id (gs.map Prod.fst) = sortedRegIdx entries :=
          sortAsc_eq_of_mem_nodup hnodup (List.nodup_dedup _) hmem
        dsimp only
        by_cases hc : sortAscBy id (gs.map Prod.fst) = List.range (gs.map Prod.fst).length
        · exfalso
          apply h
          rw [← hsorteq, hc]
          simp
        · rw [if_neg hc]
          rfl
  · decide

/-- C7 witness: the `0,1,3` gap example fails to decode. -/
theorem c7_socket_group_contiguity_witness :
    sortedRegIdx gapSockets = [0, 1, 3]
    ∧ isOkE (decodeSockets gapSockets) = false :=
  ⟨by decide, c7_socket_group_contiguity.1 gapSockets (by decide)⟩

/-- Evaluation of `find?` on a cons cell, as a rewriting-friendly `ite`. -/
theorem find?_cons_eval {α : Type} (p : α → Bool) (a : α) (l : List α) :
    List.find? p (a :: l) = if p a = true then some a else List.find? p l := by
  by_cases hp : p a = true
  · simp [List.find?, hp]
  · simp only [Bool.not_eq_true] at hp
    simp [List.find?, hp]

/-- Members of a prefix shard produced by `partitionPfx`: they come from the
candidate list, their pattern string starts with the shard's prefix, and
that prefix is the first accepting one. -/
theorem partitionPfx_shard_mem {α : Type} :
    ∀ (sps : List Pat) (mapping : List (Pat × α)) (p : Pat) (sh : List (Pat × α)),
      (p, sh) ∈ (partitionPfx sps mapping).1 →
      ∀ q ∈ sh, q ∈ mapping ∧ pfxAccepts p q.1 = true
        ∧ sps.find? (fun r => pfxAccepts r q.1) = some p := by
  intro sps
  induction sps with
  | nil =>
    intro mapping p sh h
    simp [partitionPfx] at h
  | cons p0 rest ih =>
    intro mapping p sh h q hq
    simp only [partitionPfx, List.mem_cons] at h
    rcases h with h | h
    · cases h
      have hmem := List.mem_filter.1 hq
      refine ⟨hmem.1, hmem.2, ?_⟩
      rw [find?_cons_eval, if_pos hmem.2]
    · have hr := ih (mapping.filter (fun q => !pfxAccepts p0 q.1)) p sh h q hq
      have hmem := List.mem_filter.1 hr.1
      have hneg : pfxAccepts p0 q.1 = false := by
        have := hmem.2
        simpa using this
      refine ⟨hmem.1, hr.2.1, ?_⟩
      rw [find?_cons_eval, if_neg (by simp [hneg])]
      exact hr.2.2

/-- Members of the catch-all list produced by `partitionPfx`: candidates
accepted by no prefix. -/
theorem partitionPfx_catchall_mem {α : Type} :
    ∀ (sps : List Pat) (mapping : List (Pat × α)) (q : Pat × α),
      q ∈ (partitionPfx sps mapping).2 →
      q ∈ mapping ∧ sps.find? (fun r => pfxAccepts r q.1) = none := by
  intro sps
  induction sps with
  | nil =>
    intro mapping q h
    simpa [partitionPfx] using h
  | cons p0 rest ih =>
    intro mapping q h
    simp only [partitionPfx] at h
    have hr := ih (mapping.filter (fun q => !pfxAccepts p0 q.1)) q h
    have hmem := List.mem_filter.1 hr.1
    have hneg : pfxAccepts p0 q.1 = false := by simpa using hmem.2
    refine ⟨hmem.1, ?_⟩
    rw [find?_cons_eval, if_neg (by simp [hneg])]
    exact hr.2

/-- Every candidate ends up where its first accepting prefix says: in that
prefix's shard, or in the catch-all when no prefix accepts it. -/
theorem partitionPfx_complete {α : Type} :
    ∀ (sps : List Pat) (mapping : List (Pat × α)) (q : Pat × α), q ∈ mapping →
      (sps.find? (fun r => pfxAccepts r q.1) = none →
        q ∈ (partitionPfx sps mapping).2)
      ∧ (∀ p : Pat, sps.find? (fun r => pfxAccepts r q.1) = some p →
        ∃ sh, (p, sh) ∈ (partitionPfx sps mapping).1 ∧ q ∈ sh) := by
  intro sps
  induction sps with
  | nil =>
    intro mapping q hq
    constructor
    · intro _
      simpa [partitionPfx] using hq
    · intro p hp
      simp at hp
  | cons p0 rest ih =>
    intro mapping q hq
    by_cases hacc : pfxAccepts p0 q.1 = true
    · constructor
      · intro hnone
        rw [find?_cons_eval, if_pos hacc] at hnone
        cases hnone
      · intro p hp
        rw [find?_cons_eval, if_pos hacc] at hp
        cases hp
        refine ⟨mapping.filter (fun r => pfxAccepts p0 r.1), ?_, ?_⟩
        · simp [partitionPfx]
        · exact List.mem_filter.2 ⟨hq, hacc⟩
    · have hacc' : pfxAccepts p0 q.1 = false := by
        simpa using hacc
      have hqthere : q ∈ mapping.filter (fun r => !pfxAccepts p0 r.1) :=
        List.mem_filter.2 ⟨hq, by simp [hacc']⟩
      have hr := ih (mapping.filter (fun r => !pfxAccepts p0 r.1)) q hqthere
      constructor
      · intro hnone
        rw [find?_cons_eval, if_neg (by simp [hacc'])] at hnone
        simpa [partitionPfx] using hr.1 hnone
      · intro p hp
        rw [find?_cons_eval, if_neg (by simp [hacc'])] at hp
        obtain ⟨sh, hsh, hqsh⟩ := hr.2 p hp
        exact ⟨sh, by simp [partitionPfx, hsh], hqsh⟩

/-- Shard lookup membership, unfolded. -/
theorem shard_lookupAll_mem {α : Type} (sh : RegexMatcherShard α) (text : List Char) (x : α) :
    x ∈ sh.lookupAll text ↔ ∃ q, q ∈ sh.pairs ∧ q.1.matchesB text = true ∧ q.2 = x := by
  simp only [RegexMatcherShard.lookupAll, List.mem_map, List.mem_filter]
  constructor
  · rintro ⟨q, ⟨hq, hm⟩, he⟩
    exact ⟨q, hq, hm, he⟩
  · rintro ⟨q, hq, hm, he⟩
    exact ⟨q, ⟨hq, hm⟩, he⟩

/-- A `lookup_all` result comes from the prefix-shard query or, when that
query was empty, from the fallback shard. -/
theorem lookupAll_mem_cases {α : Type} (m : RegexMatcher α) (text : List Char) (x : α)
    (hx : x ∈ m.lookupAll text) :
    x ∈ m.regularMatches text ∨ ∃ fb, m.fallback = some fb ∧ x ∈ fb.lookupAll text := by
  unfold RegexMatcher.lookupAll at hx
  by_cases h : (m.regularMatches text).isEmpty
  · rw [if_pos h] at hx
    rcases hfb : m.fallback with _ | fb
    · rw [hfb] at hx
      simp at hx
    · rw [hfb] at hx
      exact Or.inr ⟨fb, rfl, hx⟩
  · rw [if_neg h] at hx
    exact Or.inl hx

/-- A prefix-shard match comes from a selected shard of the outer matcher. -/
theorem regularMatches_mem {α : Type} (m : RegexMatcher α) (text : List Char) (x : α)
    (hx : x ∈ m.regularMatches text) :
    ∃ shs, m.shards = some shs
      ∧ ∃ psh, psh ∈ shs.pairs ∧ psh.1.matchesB text = true ∧ x ∈ psh.2.lookupAll text := by
  unfold RegexMatcher.regularMatches at hx
  rcases hshs : m.shards with _ | shs
  · rw [hshs] at hx
    simp at hx
  · rw [hshs] at hx
    rw [List.mem_flatMap] at hx
    obtain ⟨sh, hsh, hxsh⟩ := hx
    obtain ⟨psh, hpsh, hpm, hpe⟩ := (shard_lookupAll_mem shs text sh).1 hsh
    exact ⟨shs, rfl, psh, hpsh, hpm, by rwa [hpe]⟩

/-- The outer shard of a `with_shards` matcher: its pairs are exactly the
nonempty prefix shards of the partition. -/
theorem withShards_shards_pairs {α : Type} (ps : List Pat) (mapping : List (Pat × α))
    (shs : RegexMatcherShard (RegexMatcherShard α))
    (h : (RegexMatcher.withShards ps mapping).shards = some shs) :
    ps.isEmpty = false
    ∧ shs.pairs = (((partitionPfx (sortDescBy Pat.strLen ps) mapping).1.filter
        (fun q => !q.2.isEmpty)).map (fun q => (q.1, RegexMatcherShard.mk q.2))) := by
  by_cases hps : ps.isEmpty
  · exfalso
    simp [RegexMatcher.withShards, hps, RegexMatcher.new] at h
  · rw [RegexMatcher.withShards, if_neg hps] at h
    dsimp only at h
    refine ⟨by simpa using hps, ?_⟩
    by_cases hsm : (((partitionPfx (sortDescBy Pat.strLen ps) mapping).1.filter
        (fun q => !q.2.isEmpty)).map (fun q => (q.1, RegexMatcherShard.mk q.2))).isEmpty
    · rw [if_pos hsm] at h
      cases h
    · rw [if_neg hsm] at h
      cases h
      rfl

/-- The fallback shard of a `with_shards` matcher: the whole candidate list
without prefixes, or the catch-all part of the partition. -/
theorem withShards_fallback_pairs {α : Type} (ps : List Pat) (mapping : List (Pat × α))
    (fb : RegexMatcherShard α)
    (h : (RegexMatcher.withShards ps mapping).fallback = some fb) :
    (ps.isEmpty = true ∧ fb.pairs = mapping)
    ∨ (ps.isEmpty = false
        ∧ fb.pairs = (partitionPfx (sortDescBy Pat.strLen ps) mapping).2) := by
  by_cases hps : ps.isEmpty
  · left
    refine ⟨hps, ?_⟩
    rw [RegexMatcher.withShards, if_pos hps] at h
    simp only [RegexMatcher.new] at h
    cases h
    rfl
  · right
    refine ⟨by simpa using hps, ?_⟩
    rw [RegexMatcher.withShards, if_neg hps] at h
    dsimp only at h
    by_cases hce : ((partitionPfx (sortDescBy Pat.strLen ps) mapping).2).isEmpty
    · rw [if_pos hce] at h
      cases h
    · rw [if_neg hce] at h
      cases h
      rfl

/-- Soundness of `lookup_all` over a `with_shards` build: every returned
item is a candidate whose own pattern matches the text. -/
theorem withShards_lookupAll_sound {α : Type} (ps : List Pat) (mapping : List (Pat × α))
    (text : List Char) (x : α)
    (hx : x ∈ (RegexMatcher.withShards ps mapping).lookupAll text) :
    ∃ q, q ∈ mapping ∧ q.2 = x ∧ q.1.matchesB text = true := by
  rcases lookupAll_mem_cases _ _ _ hx with hreg | ⟨fb, hfb, hxfb⟩
  · obtain ⟨shs, hshs, psh, hpsh, _, hxsh⟩ := regularMatches_mem _ _ _ hreg
    obtain ⟨_, hpairs⟩ := withShards_shards_pairs ps mapping shs hshs
    rw [hpairs] at hpsh
    obtain ⟨q0, hq0, he⟩ := List.mem_map.1 hpsh
    have hq0' := List.mem_of_mem_filter hq0
    obtain ⟨q, hqsh, hqm, hqe⟩ := (shard_lookupAll_mem _ _ _).1 hxsh
    have hqin : q ∈ q0.2 := by
      have : psh.2 = RegexMatcherShard.mk q0.2 := by rw [← he]
      rw [this] at hqsh
      exact hqsh
    have hmem := partitionPfx_shard_mem (sortDescBy Pat.strLen ps) mapping q0.1 q0.2
      (by rw [show (q0.1, q0.2) = q0 from rfl]; exact hq0') q hqin
    exact ⟨q, hmem.1, hqe, hqm⟩
  · obtain ⟨q, hqp, hqm, hqe⟩ := (shard_lookupAll_mem _ _ _).1 hxfb
    rcases withShards_fallback_pairs ps mapping fb hfb with ⟨_, hp⟩ | ⟨_, hp⟩
    · rw [hp] at hqp
      exact ⟨q, hqp, hqe, hqm⟩
    · rw [hp] at hqp
      have := partitionPfx_catchall_mem (sortDescBy Pat.strLen ps) mapping q hqp
      exact ⟨q, this.1, hqe, hqm⟩

/-- Prefix-shard matches additionally record that their candidate was
assigned to some prefix shard (its pattern string extends some prefix). -/
theorem withShards_regular_sound {α : Type} (ps : List Pat) (mapping : List (Pat × α))
    (text : List Char) (x : α)
    (hx : x ∈ (RegexMatcher.withShards ps mapping).regularMatches text) :
    ∃ q p, q ∈ mapping ∧ q.2 = x ∧ q.1.matchesB text = true
      ∧ (sortDescBy Pat.strLen ps).find? (fun r => pfxAccepts r q.1) = some p := by
  obtain ⟨shs, hshs, psh, hpsh, _, hxsh⟩ := regularMatches_mem _ _ _ hx
  obtain ⟨_, hpairs⟩ := withShards_shards_pairs ps mapping shs hshs
  rw [hpairs] at hpsh
  obtain ⟨q0, hq0, he⟩ := List.mem_map.1 hpsh
  have hq0' := List.mem_of_mem_filter hq0
  obtain ⟨q, hqsh, hqm, hqe⟩ := (shard_lookupAll_mem _ _ _).1 hxsh
  have hqin : q ∈ q0.2 := by
    have hh : psh.2 = RegexMatcherShard.mk q0.2 := by rw [← he]
    rw [hh] at hqsh
    exact hqsh
  have hmem := partitionPfx_shard_mem (sortDescBy Pat.strLen ps) mapping q0.1 q0.2
    (by rw [show (q0.1, q0.2) = q0 from rfl]; exact hq0') q hqin
  exact ⟨q, q0.1, hmem.1, hqe, hqm, hmem.2.2⟩

/-- The `shards` component of a nonempty-prefix `with_shards` build. -/
theorem withShards_shards_eq {α : Type} (ps : List Pat) (mapping : List (Pat × α))
    (hps : ¬ ps.isEmpty = true) :
    (RegexMatcher.withShards ps mapping).shards =
      (if ((((partitionPfx (sortDescBy Pat.strLen ps) mapping).1.filter
            (fun q => !q.2.isEmpty)).map (fun q => (q.1, RegexMatcherShard.mk q.2)))).isEmpty
        then none
        else some (RegexMatcherShard.mk
          ((((partitionPfx (sortDescBy Pat.strLen ps) mapping).1.filter
            (fun q => !q.2.isEmpty)).map (fun q => (q.1, RegexMatcherShard.mk q.2)))))) := by
  rw [RegexMatcher.withShards, if_neg hps]

/-- The `fallback` component of a nonempty-prefix `with_shards` build. -/
theorem withShards_fallback_eq {α : Type} (ps : List Pat) (mapping : List (Pat × α))
    (hps : ¬ ps.isEmpty = true) :
    (RegexMatcher.withShards ps mapping).fallback =
      (if ((partitionPfx (sortDescBy Pat.strLen ps) mapping).2).isEmpty
        then none
        else some (RegexMatcherShard.mk ((partitionPfx (sortDescBy Pat.strLen ps) mapping).2))) := by
  rw [RegexMatcher.withShards, if_neg hps]

/-- Completeness of `lookup_all` over a `with_shards` build: a matching
candidate is returned, provided its shard (when it has one) is selected by
the text, and — when it lives in the catch-all shard — the prefix-shard
query comes up empty. -/
theorem withShards_mem_lookupAll {α : Type} (ps : List Pat) (mapping : List (Pat × α))
    (text : List Char) (q : Pat × α)
    (hq : q ∈ mapping) (hmatch : q.1.matchesB text = true)
    (halign : ∀ p, (sortDescBy Pat.strLen ps).find? (fun r => pfxAccepts r q.1) = some p →
        p.matchesB text = true)
    (hregnil : (sortDescBy Pat.strLen ps).find? (fun r => pfxAccepts r q.1) = none →
        (RegexMatcher.withShards ps mapping).regularMatches text = []) :
    q.2 ∈ (RegexMatcher.withShards ps mapping).lookupAll text := by
  by_cases hps : ps.isEmpty = true
  · have hm : RegexMatcher.withShards ps mapping = RegexMatcher.new mapping := by
      rw [RegexMatcher.withShards, if_pos hps]
    rw [hm]
    have hreg : (RegexMatcher.new mapping).regularMatches text = [] := rfl
    rw [RegexMatcher.lookupAll, hreg]
    simp only [List.isEmpty_nil, if_pos]
    show q.2 ∈ (RegexMatcherShard.mk mapping).lookupAll text
    exact (shard_lookupAll_mem _ _ _).2 ⟨q, hq, hmatch, rfl⟩
  · rcases hfind : (sortDescBy Pat.strLen ps).find? (fun r => pfxAccepts r q.1) with _ | p
    · -- catch-all case: the prefix query is empty, the fallback holds q
      have hreg := hregnil hfind
      have hcatch := (partitionPfx_complete (sortDescBy Pat.strLen ps) mapping q hq).1 hfind
      have hfb := withShards_fallback_eq ps mapping hps
      rw [if_neg (by
        intro hce
        rw [List.isEmpty_iff] at hce
        rw [hce] at hcatch
        cases hcatch)] at hfb
      rw [RegexMatcher.lookupAll, hreg]
      simp only [List.isEmpty_nil, if_pos, hfb]
      exact (shard_lookupAll_mem _ _ _).2 ⟨q, hcatch, hmatch, rfl⟩
    · -- prefix-shard case: q's shard is selected and q matches
      obtain ⟨sh, hsh, hqsh⟩ := (partitionPfx_complete (sortDescBy Pat.strLen ps) mapping q hq).2 p hfind
      have hpm := halign p hfind
      have hmemSM : (p, RegexMatcherShard.mk sh) ∈
          (((partitionPfx (sortDescBy Pat.strLen ps) mapping).1.filter
            (fun r => !r.2.isEmpty)).map (fun r => (r.1, RegexMatcherShard.mk r.2))) := by
        apply List.mem_map.2
        refine ⟨(p, sh), ?_, rfl⟩
        apply List.mem_filter.2
        refine ⟨hsh, ?_⟩
        simp only [Bool.not_eq_eq_eq_not, Bool.not_false]
        cases sh with
        | nil => cases hqsh
        | cons a l => rfl
      have hshs := withShards_shards_eq ps mapping hps
      rw [if_neg (by
        intro hce
        rw [List.isEmpty_iff] at hce
        rw [hce] at hmemSM
        cases hmemSM)] at hshs
      have hregmem : q.2 ∈ (RegexMatcher.withShards ps mapping).regularMatches text := by
        rw [RegexMatcher.regularMatches, hshs]
        rw [List.mem_flatMap]
        refine ⟨RegexMatcherShard.mk sh, ?_, ?_⟩
        · exact (shard_lookupAll_mem _ _ _).2 ⟨(p, RegexMatcherShard.mk sh), hmemSM, hpm, rfl⟩
        · exact (shard_lookupAll_mem _ _ _).2 ⟨q, hqsh, hmatch, rfl⟩
      rw [RegexMatcher.lookupAll, if_neg (by
        intro hie
        rw [List.isEmpty_iff] at hie
        rw [hie] at hregmem
        cases hregmem)]
      exact hregmem

/-- Descending stable insertion is a permutation of consing. -/
theorem insertDescBy_perm {α : Type} (key : α → ℕ) (x : α) (l : List α) :
    (insertDescBy key x l).Perm (x :: l) := by
  induction l with
  | nil => rfl
  | cons y ys ih =>
    simp only [insertDescBy]
    by_cases h : key y ≤ key x
    · rw [if_pos h]
    · rw [if_neg h]
      exact (ih.cons y).trans (List.Perm.swap x y ys)

/-- The descending stable sort is a permutation of its input. -/
theorem sortDescBy_perm {α : Type} (key : α → ℕ) (l : List α) :
    (sortDescBy key l).Perm l := by
  induction l with
  | nil => rfl
  | cons x xs ih =>
    exact (insertDescBy_perm key x (sortDescBy key xs)).trans (ih.cons x)

/-- Descending stable insertion keeps the list sorted descending by key. -/
theorem insertDescBy_sorted {α : Type} (key : α → ℕ) (x : α) (l : List α)
    (h : l.Sorted (fun u v => key v ≤ key u)) :
    (insertDescBy key x l).Sorted (fun u v => key v ≤ key u) := by
  induction l with
  | nil => simp [insertDescBy]
  | cons y ys ih =>
    rw [List.sorted_cons] at h
    simp only [insertDescBy]
    by_cases hle : key y ≤ key x
    · rw [if_pos hle]
      rw [List.sorted_cons]
      constructor
      · intro b hb
        rcases List.mem_cons.1 hb with hb | hb
        · subst hb
          exact hle
        · have := h.1 b hb
          omega
      · rw [List.sorted_cons]
        exact h
    · rw [if_neg hle]
      rw [List.sorted_cons]
      refine ⟨?_, ih h.2⟩
      intro b hb
      have hmem := (insertDescBy_perm key x ys).mem_iff.1 hb
      rcases List.mem_cons.1 hmem with hb2 | hb2
      · subst hb2
        omega
      · exact h.1 b hb2

/-- The descending stable sort is sorted descending by key. -/
theorem sortDescBy_sorted {α : Type} (key : α → ℕ) (l : List α) :
    (sortDescBy key l).Sorted (fun u v => key v ≤ key u) := by
  induction l with
  | nil => simp [sortDescBy]
  | cons x xs ih => exact insertDescBy_sorted key x (sortDescBy key xs) ih

/-- When a list has a strictly largest key held by the value `a` (every
member other than `a` has a smaller key), the descending stable sort starts
with `a`. -/
theorem sortDescBy_head_unique_max {α : Type} (key : α → ℕ) (l : List α) (a : α)
    (ha : a ∈ l) (hmax : ∀ x ∈ l, x ≠ a → key x < key a) :
    ∃ tl, sortDescBy key l = a :: tl := by
  rcases hs : sortDescBy key l with _ | ⟨w, tl⟩
  · exfalso
    have hp := sortDescBy_perm key l
    rw [hs] at hp
    rw [hp.symm.eq_nil] at ha
    cases ha
  · refine ⟨tl, ?_⟩
    by_cases hw : w = a
    · rw [hw]
    · exfalso
      have hwin : w ∈ l := (sortDescBy_perm key l).mem_iff.1 (by rw [hs]; simp)
      have hwlt := hmax w hwin hw
      have hain : a ∈ sortDescBy key l := (sortDescBy_perm key l).mem_iff.2 ha
      rw [hs] at hain
      rcases List.mem_cons.1 hain with h1 | h1
      · exact hw h1.symm
      · have hsorted := sortDescBy_sorted key l
        rw [hs, List.sorted_cons] at hsorted
        have := hsorted.1 a h1
        omega

/-- Association lookup commutes with a value-only map. -/
theorem lookupAssoc_map {κ α β : Type} [DecidableEq κ]
    (l : List (κ × α)) (g : α → β) (k : κ) :
    lookupAssoc (l.map (fun pr => (pr.1, g pr.2))) k = (lookupAssoc l k).map g := by
  induction l with
  | nil => rfl
  | cons hd tl ih =>
    simp only [lookupAssoc, List.map_cons, find?_cons_eval] at *
    by_cases hk : hd.1 = k
    · rw [if_pos (by simpa using hk), if_pos (by simpa using hk)]
      rfl
    · rw [if_neg (by simpa using hk), if_neg (by simpa using hk)]
      exact ih

/-- Looking a matcher up in a freshly built database yields the
`with_shards` build over that mod type's bucket. -/
theorem databaseNew_matcher (pfxs : List Pat) (byTypeAndId : List (ModType × List ModInfo))
    (mt : ModType) (m : RegexMatcher ModInfo)
    (h : lookupAssoc (Database.new pfxs byTypeAndId).matchersByType mt = some m) :
    ∃ bucket, lookupAssoc byTypeAndId mt = some bucket
      ∧ m = RegexMatcher.withShards pfxs (bucket.map (fun mi => (mi.pat, mi))) := by
  have heq := lookupAssoc_map byTypeAndId
    (fun bucket => RegexMatcher.withShards pfxs (bucket.map (fun mi => (mi.pat, mi)))) mt
  rw [show (Database.new pfxs byTypeAndId).matchersByType
      = byTypeAndId.map (fun pr =>
          (pr.1, RegexMatcher.withShards pfxs (pr.2.map (fun mi => (mi.pat, mi))))) from rfl] at h
  rw [heq] at h
  rcases hb : lookupAssoc byTypeAndId mt with _ | bucket
  · rw [hb] at h
    cases h
  · rw [hb] at h
    cases h
    exact ⟨bucket, rfl, rfl⟩

/-- A matched template always parses: with at least one parameter the
capture list of the match is nonempty, and with none the parse is
unconditional. -/
theorem parseText_isSome_of_match (mi : ModInfo) (text : List Char)
    (hm : mi.pat.matchesB text = true) (ht : trimC text = text) :
    ∃ vs, mi.parseText text = some vs := by
  rw [ModInfo.parseText]
  by_cases h0 : mi.paramCount = 0
  · rw [if_pos h0]
    exact ⟨[], rfl⟩
  · rw [if_neg h0]
    rw [Pat.matchesB] at hm
    rcases hc : capsA mi.pat.anch mi.pat.segs text with _ | ⟨c, cs⟩
    · rw [hc] at hm
      simp at hm
    · rw [ht, hc]
      exact ⟨c.map capValue, rfl⟩

/-- C2: confirmed.  Whenever a mod text matches more than one template of
its mod type and one matching template's compiled pattern string is
strictly longest, `Database::resolve` returns that template (together with
the values it parses from the text), and repeated calls return the same
result; with exactly two matches of different pattern lengths this is the
claim's two-template instance. -/
theorem c2_resolve_longest_pattern_wins :
    ∀ (pfxs : List Pat) (byTypeAndId : List (ModType × List ModInfo)) (mt : ModType)
      (text : List Char) (m : RegexMatcher ModInfo) (ms : List ModInfo) (a : ModInfo),
      lookupAssoc (Database.new pfxs byTypeAndId).matchersByType mt = some m →
      m.lookupAll text = ms →
      2 ≤ ms.length →
      a ∈ ms →
      (∀ x ∈ ms, x ≠ a → x.pat.strLen < a.pat.strLen) →
      trimC text = text →
      (∃ vs, a.parseText text = some vs
        ∧ (Database.new pfxs byTypeAndId).resolve mt text = some (a, vs))
      ∧ (∀ r1 r2 : Option (ModInfo × List ℚ),
          r1 = (Database.new pfxs byTypeAndId).resolve mt text →
          r2 = (Database.new pfxs byTypeAndId).resolve mt text → r1 = r2) := by
  intro pfxs byTypeAndId mt text m ms a hm hla hlen hmem hmax htrim
  obtain ⟨bucket, _, hmw⟩ := databaseNew_matcher pfxs byTypeAndId mt m hm
  have ha : a ∈ m.lookupAll text := by
    rw [hla]
    exact hmem
  rw [hmw] at ha
  obtain ⟨q, hqmem, hqe, hqm⟩ := withShards_lookupAll_sound _ _ _ _ ha
  obtain ⟨u, _, hque⟩ := List.mem_map.1 hqmem
  have hupat : u.pat = q.1 ∧ u = q.2 := by
    constructor <;> rw [← hque]
  have hapat : a.pat.matchesB text = true := by
    have hua : u = a := by rw [hupat.2, hqe]
    rw [← hua, hupat.1]
    exact hqm
  obtain ⟨vs, hvs⟩ := parseText_isSome_of_match a text hapat htrim
  constructor
  · refine ⟨vs, hvs, ?_⟩
    rw [Database.resolve, hm]
    dsimp only
    rw [hla]
    rcases ms with _ | ⟨m1, _ | ⟨m2, rest⟩⟩
    · simp at hlen
    · simp at hlen
    · dsimp only
      obtain ⟨tl, hsort⟩ := sortDescBy_head_unique_max (fun mi => mi.pat.strLen)
        (m1 :: m2 :: rest) a hmem
        (by intro x hx hxa; exact hmax x hx hxa)
      rw [hsort]
      dsimp only
      rw [hvs]
      rfl
  · intro r1 r2 h1 h2
    rw [h1, h2]

/-- C2 witness: on a concrete database where the text `"x 1"` matches three
templates of one mod type — `"x #"` (the unique longest pattern), `"x 1"`
and `"X 1"` — `resolve` returns the longest one with its parsed value. -/
theorem c2_resolve_longest_pattern_wins_witness :
    tieDb.resolve ModType.implicit (chars "x 1") = some (tieLongMod, [1]) := by
  obtain ⟨⟨vs, hvs, hres⟩, _⟩ := c2_resolve_longest_pattern_wins [] tieBuckets ModType.implicit
    (chars "x 1")
    (RegexMatcher.withShards []
      (([tieLongMod, tieShortMod, tieThirdMod]).map (fun mi => (mi.pat, mi))))
    [tieLongMod, tieShortMod, tieThirdMod] tieLongMod
    (by decide) (by decide) (by decide) (by decide) (by decide) (by decide)
  have hv : vs = [1] := by
    rw [show tieLongMod.parseText (chars "x 1") = some [1] from by decide] at hvs
    cases hvs
    rfl
  rw [hv] at hres
  exact hres

/-- C1 (amended): for a template `t` of the database, `resolve` maps an
instantiation of `t`'s text back to `t` (with the values `t` parses from
it) provided that (i) the instantiation matches `t`'s own pattern and
parses, (ii) it matches no other template of the same mod type, and
(iii) when `t` was assigned to a prefix shard, that shard's prefix pattern
matches the instantiation. -/
theorem c1_round_trip_amended :
    ∀ (pfxs : List Pat) (byTypeAndId : List (ModType × List ModInfo)) (mt : ModType)
      (bucket : List ModInfo) (t : ModInfo) (samples : List (List Char)) (vals : List ℚ),
      lookupAssoc byTypeAndId mt = some bucket →
      t ∈ bucket →
      t.pat.matchesB (instantiate t.textTemplate samples) = true →
      (∀ u ∈ bucket, u ≠ t →
        u.pat.matchesB (instantiate t.textTemplate samples) = false) →
      (∀ p : Pat,
        (sortDescBy Pat.strLen pfxs).find? (fun r => pfxAccepts r t.pat) = some p →
        p.matchesB (instantiate t.textTemplate samples) = true) →
      t.parseText (instantiate t.textTemplate samples) = some vals →
      (Database.new pfxs byTypeAndId).resolve mt (instantiate t.textTemplate samples)
        = some (t, vals) := by
  intro pfxs byTypeAndId mt bucket t samples vals hbkt ht hmatch hothers halign hparse
  set inst := instantiate t.textTemplate samples with hinstdef
  set mapping := bucket.map (fun mi => (mi.pat, mi)) with hmapdef
  set m := RegexMatcher.withShards pfxs mapping with hmdef
  have hmENTRY : lookupAssoc (Database.new pfxs byTypeAndId).matchersByType mt = some m := by
    have heq := lookupAssoc_map byTypeAndId
      (fun bk => RegexMatcher.withShards pfxs (bk.map (fun mi => (mi.pat, mi)))) mt
    rw [show (Database.new pfxs byTypeAndId).matchersByType
        = byTypeAndId.map (fun pr =>
            (pr.1, RegexMatcher.withShards pfxs (pr.2.map (fun mi => (mi.pat, mi))))) from rfl]
    rw [heq, hbkt]
    rfl
  have hall : ∀ x ∈ m.lookupAll inst, x = t := by
    intro x hx
    obtain ⟨q, hqmem, hqe, hqm⟩ := withShards_lookupAll_sound pfxs mapping inst x hx
    obtain ⟨u, hu, hque⟩ := List.mem_map.1 hqmem
    have hup : u.pat = q.1 := by rw [← hque]
    have huq : u = q.2 := by rw [← hque]
    by_cases hut : u = t
    · rw [← hqe, ← huq, hut]
    · exfalso
      have hfalse := hothers u hu hut
      rw [hup, hqm] at hfalse
      cases hfalse
  have hmem : (t.pat, t).2 ∈ m.lookupAll inst := by
    apply withShards_mem_lookupAll pfxs mapping inst (t.pat, t)
      (List.mem_map.2 ⟨t, ht, rfl⟩) hmatch
    · intro p hp
      exact halign p hp
    · intro hnone
      rcases hreg : m.regularMatches inst with _ | ⟨x, xs⟩
      · rfl
      · exfalso
        have hx : x ∈ m.regularMatches inst := by
          rw [hreg]
          simp
        obtain ⟨q2, p2, hq2mem, hq2e, hq2m, hq2f⟩ :=
          withShards_regular_sound pfxs mapping inst x hx
        obtain ⟨u2, hu2, hq2ue⟩ := List.mem_map.1 hq2mem
        have hu2p : u2.pat = q2.1 := by rw [← hq2ue]
        by_cases hu2t : u2 = t
        · rw [hu2t] at hu2p
          rw [← hu2p] at hq2f
          rw [hnone] at hq2f
          cases hq2f
        · have hfalse := hothers u2 hu2 hu2t
          rw [hu2p, hq2m] at hfalse
          cases hfalse
  rcases hes : m.lookupAll inst with _ | ⟨x, _ | ⟨y, rest⟩⟩
  · exfalso
    rw [hes] at hmem
    cases hmem
  · have hx : x = t := hall x (by rw [hes]; simp)
    rw [Database.resolve, hmENTRY]
    dsimp only
    rw [hes]
    dsimp only
    rw [hx, hparse]
    rfl
  · rcases hsort : sortDescBy (fun mi => mi.pat.strLen) (x :: y :: rest) with _ | ⟨w, ws⟩
    · exfalso
      have hp := sortDescBy_perm (fun mi => mi.pat.strLen) (x :: y :: rest)
      rw [hsort] at hp
      have := hp.symm.eq_nil
      cases this
    · have hw : w = t := by
        apply hall w
        rw [hes]
        have hwmem : w ∈ sortDescBy (fun mi => mi.pat.strLen) (x :: y :: rest) := by
          rw [hsort]
          simp
        exact (sortDescBy_perm (fun mi => mi.pat.strLen) (x :: y :: rest)).mem_iff.1 hwmem
      rw [Database.resolve, hmENTRY]
      dsimp only
      rw [hes]
      dsimp only
      rw [hsort]
      dsimp only
      rw [hw, hparse]
      rfl

/-- C1 counterexample: in a database containing the templates `"x #"` and
`"x 1"` (same mod type), the zero-placeholder template `"x 1"` has exactly
one literal instantiation — its own text — and `resolve` maps it to the
longer-pattern template `"x #"`, so no instantiation of `"x 1"` resolves
back to its own id. -/
theorem c1_round_trip_counterexample :
    rtShortMod ∈ rtDb.iterList
    ∧ (∀ samples : List (List Char),
        instantiate rtShortMod.textTemplate samples = chars "x 1")
    ∧ (rtDb.resolve ModType.explicit (chars "x 1")).map (fun pr => pr.1.id)
        = some rtLongMod.id
    ∧ rtLongMod.id ≠ rtShortMod.id
    ∧ ¬ ∃ samples : List (List Char),
        (rtDb.resolve ModType.explicit (instantiate rtShortMod.textTemplate samples)).map
          (fun pr => pr.1.id) = some rtShortMod.id := by
  have hconst : ∀ samples : List (List Char),
      instantiate rtShortMod.textTemplate samples = chars "x 1" := by
    intro samples
    show instantiate (chars "x 1") samples = chars "x 1"
    simp only [chars]
    simp only [instantiate]
    rw [if_neg (by decide), if_neg (by decide), if_neg (by decide)]
  have heval : (rtDb.resolve ModType.explicit (chars "x 1")).map (fun pr => pr.1.id)
      = some rtLongMod.id := by decide
  refine ⟨by decide, hconst, heval, by decide, ?_⟩
  rintro ⟨samples, h⟩
  rw [hconst samples, heval] at h
  exact absurd h (by decide)

/-- C1 amended witness: a concrete single-template database where the
instantiation `"+69% increased Awesomeness"` of `"+#% increased
Awesomeness"` resolves back to its template with the value 69. -/
theorem c1_round_trip_amended_witness :
    (Database.new [] rtwBuckets).resolve ModType.explicit
      (instantiate rtwMod.textTemplate [chars "69"]) = some (rtwMod, [69]) :=
  c1_round_trip_amended [] rtwBuckets ModType.explicit [rtwMod] rtwMod [chars "69"] [69]
    (by decide) (by decide) (by decide) (by decide)
    (by intro p hp; simp [sortDescBy] at hp) (by decide)
